import Mathlib

/-!
Verification of the chunk-and-load pipeline scripts of this repository.

The development shallowly embeds the Python sources:

- process_code.py: language resolution from file extensions, the per-document
  chunking loop with its structure-aware/fallback split, record assembly with
  stringified running chunk indices, collection rebuild, and the batched upsert
  loop;
- process_documents.py: the same pipeline without language resolution;
- delete_non_text_files.py: the text-file heuristic and the recursive
  deletion walk with its dry-run mode.

External collaborators (the directory reader, the tree-sitter splitters, the
embedding model, the byte-decoding routines of the Python codecs, and the
vector store client) are modelled as oracle function parameters or as explicit
state transitions on a store value, following the call contracts the scripts
rely on. Machine-level details (sockets, actual file contents) are abstracted
into such oracles; every branch of the scripts themselves is reproduced.
-/

namespace CareDirector

/-! ### Decimal rendering: the embedding of the Python builtin str(i) on Nat -/

/-- Character of a single decimal digit; embeds the rendering of one digit of
the Python builtin str applied to a nonnegative integer. -/
def digitCharOf (d : Nat) : Char := Char.ofNat (48 + d)

/-- Decimal rendering of a natural number; embeds the Python builtin str(i)
as the scripts apply it to running chunk indices. -/
def pyStr (n : Nat) : String :=
  if n = 0 then "0" else String.mk (((Nat.digits 10 n).map digitCharOf).reverse)

/-- Inverse reading of a decimal string, used only to show pyStr injective. -/
def unStr (s : String) : Nat :=
  Nat.ofDigits 10 ((s.toList.map (fun c => c.toNat - 48)).reverse)

theorem digitCharOf_roundtrip : ∀ d, d < 10 → (digitCharOf d).toNat - 48 = d := by decide

theorem unStr_pyStr (n : Nat) : unStr (pyStr n) = n := by
  by_cases h : n = 0
  · subst h; decide
  · unfold pyStr unStr
    rw [if_neg h]
    have htl : (String.mk (((Nat.digits 10 n).map digitCharOf).reverse)).toList
        = ((Nat.digits 10 n).map digitCharOf).reverse := rfl
    rw [htl, List.map_reverse, List.reverse_reverse, List.map_map]
    have hmap : ((Nat.digits 10 n).map ((fun c => c.toNat - 48) ∘ digitCharOf))
        = (Nat.digits 10 n).map id := by
      apply List.map_congr_left
      intro d hd
      have hlt : d < 10 := Nat.digits_lt_base (by norm_num) hd
      simpa using digitCharOf_roundtrip d hlt
    rw [hmap, List.map_id, Nat.ofDigits_digits]

theorem pyStr_injective : Function.Injective pyStr :=
  Function.LeftInverse.injective unStr_pyStr

/-! ### Path handling: the embedding of pathlib suffix extraction and str.lower -/

/-- Lowercasing of a string, embedding the Python str.lower call as the script
uses it on ASCII file extensions. -/
def strLower (s : String) : String := String.mk (s.toList.map Char.toLower)

/-- Final path component, embedding the name property of pathlib PurePath. -/
def path_name (p : String) : List Char :=
  (p.toList.reverse.takeWhile (fun c => !(c == '/'))).reverse

/-- Index of the last occurrence of a character, embedding the Python
str.rfind call inside the suffix property of pathlib. -/
def rfindAux (cs : List Char) (t : Char) (i : Nat) : Option Nat :=
  match cs with
  | [] => none
  | c :: rest =>
    match rfindAux rest t (i + 1) with
    | some j => some j
    | none => if c = t then some i else none

/-- Extension of the final path component, embedding the suffix property of
pathlib PurePath: the part of the name from its last dot on, provided the dot
is neither the first nor the last character of the name. -/
def path_suffix (p : String) : String :=
  let name := path_name p
  match rfindAux name '.' 0 with
  | some i => if 0 < i && i < name.length - 1 then String.mk (name.drop i) else ""
  | none => ""

/-! ### The Language Resolver of process_code.py -/

/-- Linear scan over the language mapping table, embedding the for loop of
get_language_from_extension in process_code.py: the first language whose
extension list contains the already lowercased extension wins. -/
def lookupLang (file_extension : String) : List (String × List String) → Option String
  | [] => none
  | (language, extensions) :: rest =>
    if file_extension ∈ extensions then some language else lookupLang file_extension rest

/-- Embedding of get_language_from_extension in process_code.py. The Python
None result (no match) is embedded as Option.none. -/
def get_language_from_extension (file_path : String)
    (language_mappings : List (String × List String)) : Option String :=
  lookupLang (strLower (path_suffix file_path)) language_mappings

/-- Modelled from the spec: the Language Resolver as section 4.1 words it,
returning the declared language name whose extension list contains the path
extension matched case-insensitively (both sides lowercased). Stated only to
compare with get_language_from_extension, which lowercases the path side
alone. -/
def languageResolverSpec (file_path : String)
    (language_mappings : List (String × List String)) : Option String :=
  let ext := strLower (path_suffix file_path)
  (language_mappings.find? (fun p => p.2.any (fun e => strLower e == ext))).map
    (fun p => p.1)

example : path_suffix "dir/a.tar.gz" = ".gz" := by decide
example : path_suffix "dir/.bashrc" = "" := by decide
example : path_suffix "a." = "" := by decide
example : get_language_from_extension "x/a.PY" [("python", [".py"])] = some "python" := by decide
example : get_language_from_extension "x/a.py" [("python", [".PY"])] = none := by decide
example : languageResolverSpec "x/a.py" [("python", [".PY"])] = some "python" := by decide

/-! ### Data model of the pipeline -/

/-- One document as produced by SimpleDirectoryReader: raw text plus the
source path metadata the scripts read back out of it. -/
structure Document where
  file_path : String
  file_name : String
  text : String
deriving DecidableEq

/-- One chunk node as returned by a node parser: its text, its library
assigned node id, and the source metadata inherited from the document. -/
structure Node where
  node_id : String
  text : String
  file_path : String
  file_name : String
deriving DecidableEq

/-- Embedding vectors; their numeric content never matters to the scripts, so
the component type is left as integers. -/
abbrev EmbVector : Type := List Int

/-- The metadata object of the payload format required by the MCP server. -/
structure PointMetadata where
  file_path : String
  file_name : String
  chunk_id : String
  node_id : String
deriving DecidableEq

/-- The payload format required by the MCP server. -/
structure Payload where
  document : String
  metadata : PointMetadata
deriving DecidableEq

/-- Declared schema of one named vector: dimensionality and distance. -/
structure VectorParams where
  size : Nat
  distance : String
deriving DecidableEq

/-- One record sent to the store, mirroring models.PointStruct. -/
structure PointStruct where
  id : String
  vector : List (String × EmbVector)
  payload : Payload
deriving DecidableEq

/-- One collection held by the store: its name, its declared vector schema,
and its current records. -/
structure Collection where
  name : String
  vectors_config : List (String × VectorParams)
  points : List PointStruct
deriving DecidableEq

/-- Progress and diagnostic lines the scripts print, abstracted to events. -/
inductive Event where
  | mappingsFailed
  | connected
  | connectFailed
  | deletedCollection (name : String)
  | collectionMissing (name : String)
  | createdDir (path : String)
  | noDocs
  | loadedDocs (n : Nat)
  | skippedFile (path : String)
  | processedFile (path language : String) (n : Nat)
  | fallback (path language : String)
  | storedChunks (n : Nat)
deriving DecidableEq

/-- Outcome of one script run: final store state, process exit status, and
the printed events. -/
structure RunResult where
  store : List Collection
  exit_code : Nat
  events : List Event
deriving DecidableEq

/-! ### Store operations (qdrant client calls) -/

/-- The vectors_config literal both scripts pass to create_collection: one
named vector, dimensionality 384, cosine distance. -/
def codeVectorsConfig : List (String × VectorParams) :=
  [("fast-all-minilm-l6-v2", { size := 384, distance := "Cosine" })]

/-- The collection create_collection produces from that schema. -/
def freshCollection (name : String) : Collection :=
  { name := name, vectors_config := codeVectorsConfig, points := [] }

/-- Embedding of the client delete_collection call: removes the collection of
that name, failing when no such collection exists. -/
def delete_collection (store : List Collection) (name : String) :
    Except String (List Collection) :=
  if store.any (fun c => c.name == name) then
    Except.ok (store.filter (fun c => !(c.name == name)))
  else
    Except.error "collection not found"

/-- Embedding of the client create_collection call: appends a fresh empty
collection with the given schema, failing when the name is already taken. -/
def create_collection (store : List Collection) (name : String)
    (cfg : List (String × VectorParams)) : Except String (List Collection) :=
  if store.any (fun c => c.name == name) then
    Except.error "collection already exists"
  else
    Except.ok (store ++ [{ name := name, vectors_config := cfg, points := [] }])

/-- Embedding of the client upsert call: inside the named collection, records
whose id matches an incoming record are replaced, the rest of the incoming
records are inserted. -/
def upsert (store : List Collection) (collection_name : String)
    (pts : List PointStruct) : List Collection :=
  store.map (fun c =>
    if c.name == collection_name then
      { c with points := c.points.filter (fun p => pts.all (fun q => !(q.id == p.id))) ++ pts }
    else c)

/-- Embedding of the shared collection rebuild step of both scripts (lines
63 to 76 of process_code.py, 30 to 44 of process_documents.py): delete the
collection if its name is listed, then create it fresh. The event records
which branch was printed. -/
def collection_setup (store : List Collection) (collection_name : String) :
    Except String (List Collection × List Event) := do
  let collection_names := store.map (fun c => c.name)
  let r ←
    if collection_name ∈ collection_names then
      (delete_collection store collection_name).map
        (fun s => (s, Event.deletedCollection collection_name))
    else
      Except.ok (store, Event.collectionMissing collection_name)
  let store2 ← create_collection r.1 collection_name codeVectorsConfig
  Except.ok (store2, [r.2])

/-! ### The chunking loop of process_code.py -/

/-- Oracles and run inputs for one process_code invocation. reachable stands
for the connect-and-list call succeeding; dirExists for os.path.exists on the
source directory; documents for what SimpleDirectoryReader returns then;
codeSplit for the try block around get_parser plus CodeSplitter (its Nat
arguments are chunk_lines, chunk_lines_overlap and max_chars); sentenceSplit
for SentenceSplitter (arguments chunk_size and chunk_overlap); embed for the
FastEmbed model. -/
structure CodeEnv where
  mappingsOk : Bool
  language_mappings : List (String × List String)
  reachable : Bool
  dirExists : Bool
  documents : List Document
  codeSplit : String → Nat → Nat → Nat → Document → Except String (List Node)
  sentenceSplit : Nat → Nat → Document → List Node
  embed : String → EmbVector

/-- Embedding of one iteration of the for loop over documents in
process_code.py (lines 96 to 126): resolve the language from the extension;
skip the file when unresolved; otherwise try the structure-aware splitter
with chunk_lines 40, overlap 15, max_chars 1500, and on any failure fall back
to SentenceSplitter with chunk_size 512 and chunk_overlap 50, printing the
fallback lines. -/
def chunkStep (env : CodeEnv) (doc : Document) : List Node × List Event :=
  match get_language_from_extension doc.file_path env.language_mappings with
  | none => ([], [Event.skippedFile doc.file_path])
  | some language =>
    match env.codeSplit language 40 15 1500 doc with
    | Except.ok nodes => (nodes, [Event.processedFile doc.file_path language nodes.length])
    | Except.error _ => (env.sentenceSplit 512 50 doc, [Event.fallback doc.file_path language])

/-- Embedding of the whole for loop: all_nodes accumulated by extend in
document order, events in print order. -/
def chunkLoop (env : CodeEnv) : List Document → List Node × List Event
  | [] => ([], [])
  | doc :: rest =>
    let r := chunkStep env doc
    let r2 := chunkLoop env rest
    (r.1 ++ r2.1, r.2 ++ r2.2)

/-! ### Record assembly and the batched upsert loop -/

/-- Embedding of the point assembly loop of process_code.py (lines 134 to
159) and, identically, of process_documents.py (lines 69 to 89): for each
chunk node, paired with its embedding, a record keyed by the node id whose
payload metadata carries the stringified running index as chunk_id. The two
scripts differ only in requesting the embeddings in one batch call versus one
call per chunk; for the pure embedding oracle both produce the same pairing,
so one definition embeds both loops. -/
def mkPoints (embed : String → EmbVector) (all_nodes : List Node) : List PointStruct :=
  all_nodes.enum.map (fun p =>
    { id := p.2.node_id,
      vector := [("fast-all-minilm-l6-v2", embed p.2.text)],
      payload :=
        { document := p.2.text,
          metadata :=
            { file_path := p.2.file_path, file_name := p.2.file_name,
              chunk_id := pyStr p.1, node_id := p.2.node_id } } })

/-- Fuel-driven core of the Python range builtin with a step: emits i, then
i plus step, while below stop. The fuel argument only forces termination; any
fuel at least stop minus i gives the full range. -/
def pyRangeAux : Nat → Nat → Nat → Nat → List Nat
  | 0, _, _, _ => []
  | fuel + 1, i, stop, step =>
    if i < stop then i :: pyRangeAux fuel (i + step) stop step else []

/-- Embedding of the Python range(start, stop, step) builtin for a positive
step, as the upsert loop of process_code.py uses it. -/
def pyRange (start stop step : Nat) : List Nat :=
  if 0 < step then pyRangeAux stop start stop step else []

/-- Embedding of the batch slicing of the upsert loop of process_code.py
(lines 163 to 174): one slice points from i to i plus batch_size for every i
produced by range(0, total_points, batch_size). -/
def upsertBatches (points : List PointStruct) (batch_size : Nat) : List (List PointStruct) :=
  (pyRange 0 points.length batch_size).map (fun i => (points.drop i).take batch_size)

/-! ### The two pipeline drivers -/

/-- Embedding of process_code in process_code.py. Every early return of the
script falls off main and ends the process with status 0; an exception from
the unguarded collection calls would end it nonzero, which the error branch
of collection_setup records. -/
def process_code (env : CodeEnv) (store : List Collection)
    (code_path collection_name : String) : RunResult :=
  if !env.mappingsOk then { store := store, exit_code := 0, events := [Event.mappingsFailed] }
  else if !env.reachable then { store := store, exit_code := 0, events := [Event.connectFailed] }
  else
    match collection_setup store collection_name with
    | Except.error _ => { store := store, exit_code := 1, events := [Event.connected] }
    | Except.ok r =>
      let store1 := r.1
      let events0 := Event.connected :: r.2
      if !env.dirExists then
        { store := store1, exit_code := 0, events := events0 ++ [Event.createdDir code_path] }
      else if env.documents.isEmpty then
        { store := store1, exit_code := 0, events := events0 ++ [Event.noDocs] }
      else
        let documents := env.documents
        let r2 := chunkLoop env documents
        let all_nodes := r2.1
        if all_nodes.isEmpty then
          { store := store1, exit_code := 0,
            events := events0 ++ [Event.loadedDocs documents.length] ++ r2.2 }
        else
          let points := mkPoints env.embed all_nodes
          let batches := upsertBatches points 1000
          let store2 := batches.foldl (fun s b => upsert s collection_name b) store1
          { store := store2, exit_code := 0,
            events := events0 ++ [Event.loadedDocs documents.length] ++ r2.2
              ++ [Event.storedChunks points.length] }

/-- Oracles and run inputs for one process_documents invocation; sentenceSplit
stands for the one get_nodes_from_documents call over the whole document
list. -/
structure DocsEnv where
  reachable : Bool
  dirExists : Bool
  documents : List Document
  sentenceSplit : Nat → Nat → List Document → List Node
  embed : String → EmbVector

/-- Embedding of process_documents in process_documents.py: same shape as
process_code without language resolution, with one SentenceSplitter pass of
chunk_size 512 and chunk_overlap 50 over all documents and a single upsert
call. -/
def process_documents (env : DocsEnv) (store : List Collection)
    (docs_path collection_name : String) : RunResult :=
  if !env.reachable then { store := store, exit_code := 0, events := [Event.connectFailed] }
  else
    match collection_setup store collection_name with
    | Except.error _ => { store := store, exit_code := 1, events := [Event.connected] }
    | Except.ok r =>
      let store1 := r.1
      let events0 := Event.connected :: r.2
      if !env.dirExists then
        { store := store1, exit_code := 0, events := events0 ++ [Event.createdDir docs_path] }
      else if env.documents.isEmpty then
        { store := store1, exit_code := 0, events := events0 ++ [Event.noDocs] }
      else
        let nodes := env.sentenceSplit 512 50 env.documents
        let points := mkPoints env.embed nodes
        let store2 := upsert store1 collection_name points
        { store := store2, exit_code := 0,
          events := events0 ++ [Event.loadedDocs env.documents.length]
            ++ [Event.storedChunks points.length] }

/-! ### The file deletion tool of delete_non_text_files.py -/

/-- One file as the os.walk traversal sees it. dir_hidden marks a file inside
a dot-prefixed directory, which the walk prunes and never visits; name_hidden
marks a dot-prefixed filename, which the loop skips; mime is the result of
the mimetypes.guess_type call on the path; content is the byte content the
open-and-read delivers, none standing for the read raising an exception. -/
structure FsFile where
  path : String
  dir_hidden : Bool
  name_hidden : Bool
  mime : Option String
  content : Option (List Nat)
deriving DecidableEq

/-- Embedding of the Python str.startswith method: character list equality
on the leading segment. -/
def pyStartswith (s pre : String) : Bool :=
  s.toList.take pre.toList.length == pre.toList

/-- The MIME branch of is_text_file: guess_type returned something starting
with text followed by a slash. -/
def mimeIsText (f : FsFile) : Bool :=
  match f.mime with
  | some m => pyStartswith m "text/"
  | none => false

/-- Embedding of is_text_file in delete_non_text_files.py. The decodes oracle
stands for the Python codecs: decodes enc bytes is true when bytes.decode of
that encoding succeeds. A text MIME guess returns true before any read; a
failing read returns false through the outer except; otherwise the first 8192
bytes decide: empty is text, a null byte is binary, then the utf-8, latin-1,
ascii, utf-16 decode attempts run in order. -/
def is_text_file (decodes : String → List Nat → Bool) (f : FsFile) : Bool :=
  if mimeIsText f then true
  else
    match f.content with
    | none => false
    | some bytes =>
      let chunk := bytes.take 8192
      if chunk = [] then true
      else if 0 ∈ chunk then false
      else if decodes "utf-8" chunk then true
      else if decodes "latin-1" chunk then true
      else if decodes "ascii" chunk then true
      else if decodes "utf-16" chunk then true
      else false

/-- The error line delete_non_text_files prints when os.remove fails. -/
def errMsg (path : String) : String := "Error processing " ++ path

/-- Outcome of one delete_non_text_files call: the files still on disk, the
deleted_files list, and the errors list, as the function returns them. -/
structure DeleteResult where
  fs : List FsFile
  deleted_files : List String
  errors : List String
deriving DecidableEq

/-- Embedding of delete_non_text_files in delete_non_text_files.py over the
walk sequence. removeFails path stands for os.remove raising on that path.
Files in pruned hidden directories and dot-prefixed files stay untouched;
text files stay; non-text files are printed and listed in dry run, removed
otherwise, with a failing removal recorded in errors and the file left in
place. -/
def delete_non_text_files (decodes : String → List Nat → Bool)
    (removeFails : String → Bool) (fs : List FsFile) (dry_run : Bool) : DeleteResult :=
  match fs with
  | [] => { fs := [], deleted_files := [], errors := [] }
  | f :: rest =>
    let r := delete_non_text_files decodes removeFails rest dry_run
    if f.dir_hidden then { r with fs := f :: r.fs }
    else if f.name_hidden then { r with fs := f :: r.fs }
    else if is_text_file decodes f then { r with fs := f :: r.fs }
    else if dry_run then { r with fs := f :: r.fs, deleted_files := f.path :: r.deleted_files }
    else if removeFails f.path then { r with fs := f :: r.fs, errors := errMsg f.path :: r.errors }
    else { r with deleted_files := f.path :: r.deleted_files }

/-! ### Helper lemmas on the collection rebuild step -/

theorem collection_setup_eq (store : List Collection) (name : String) :
    collection_setup store name =
      Except.ok (store.filter (fun c => !(c.name == name)) ++ [freshCollection name],
        [if name ∈ store.map (fun c => c.name) then Event.deletedCollection name
         else Event.collectionMissing name]) := by
  by_cases h : name ∈ store.map (fun c => c.name)
  · have hany : store.any (fun c => c.name == name) = true := by
      rw [List.any_eq_true]
      obtain ⟨c, hc, he⟩ := List.mem_map.mp h
      exact ⟨c, hc, by simp [he]⟩
    have hnoneP : ¬ ∃ c, c ∈ store.filter (fun c => !(c.name == name)) ∧ c.name = name := by
      rintro ⟨c, hc, he⟩
      rw [List.mem_filter] at hc
      rw [he] at hc
      simp at hc
    simp [collection_setup, delete_collection, create_collection, h, hany, hnoneP,
      freshCollection, Except.map, Bind.bind, Except.bind]
  · have hany : store.any (fun c => c.name == name) = false := by
      rw [Bool.eq_false_iff]
      intro hcon
      rw [List.any_eq_true] at hcon
      obtain ⟨c, hc, he⟩ := hcon
      exact h (List.mem_map.mpr ⟨c, hc, by simpa using he⟩)
    have hnoneP : ¬ ∃ c, c ∈ store ∧ c.name = name := by
      rintro ⟨c, hc, he⟩
      exact h (List.mem_map.mpr ⟨c, hc, he⟩)
    have hfilter : store.filter (fun c => !(c.name == name)) = store := by
      apply List.filter_eq_self.mpr
      intro c hc
      simp only [Bool.not_eq_true']
      rw [Bool.eq_false_iff]
      intro he
      exact h (List.mem_map.mpr ⟨c, hc, by simpa using he⟩)
    simp [collection_setup, delete_collection, create_collection, h, hany, hnoneP, hfilter,
      freshCollection, Except.map, Bind.bind, Except.bind]

theorem process_code_exit_zero (env : CodeEnv) (store : List Collection)
    (code_path collection_name : String) :
    (process_code env store code_path collection_name).exit_code = 0 := by
  unfold process_code
  rw [collection_setup_eq]
  by_cases h1 : env.mappingsOk <;> by_cases h2 : env.reachable <;>
    simp only [h1, h2, Bool.not_true, Bool.not_false, if_true, if_false, Bool.false_eq_true,
      if_neg, ite_true, ite_false]
  all_goals
    repeat first
      | rfl
      | split

/-- C6: given a collection name, the collection manager step always succeeds
(a missing collection is not an error), and the store afterwards holds
exactly one collection of that name, fresh and empty with the declared
schema of one named vector fast-all-minilm-l6-v2 of dimensionality 384 and
cosine distance, all other collections untouched; when the name already
existed the delete branch ran first, otherwise the missing branch was
reported. -/
theorem collection_manager_rebuild (store : List Collection) (name : String) :
    ∃ store2 ev, collection_setup store name = Except.ok (store2, ev) ∧
      store2.filter (fun c => c.name == name) = [freshCollection name] ∧
      store2.filter (fun c => !(c.name == name)) = store.filter (fun c => !(c.name == name)) ∧
      (freshCollection name).vectors_config
        = [("fast-all-minilm-l6-v2", { size := 384, distance := "Cosine" })] ∧
      (freshCollection name).points = [] ∧
      ev = [if name ∈ store.map (fun c => c.name) then Event.deletedCollection name
            else Event.collectionMissing name] := by
  refine ⟨_, _, collection_setup_eq store name, ?_, ?_, rfl, rfl, rfl⟩
  · rw [List.filter_append]
    have h1 : (store.filter (fun c => !(c.name == name))).filter (fun c => c.name == name)
        = [] := by
      apply List.filter_eq_nil_iff.mpr
      intro c hc
      rw [List.mem_filter] at hc
      simp only [Bool.not_eq_true'] at hc
      simp [hc.2]
    rw [h1]
    simp [freshCollection]
  · rw [List.filter_append]
    have h1 : (store.filter (fun c => !(c.name == name))).filter (fun c => !(c.name == name))
        = store.filter (fun c => !(c.name == name)) := by
      apply List.filter_eq_self.mpr
      intro c hc
      exact (List.mem_filter.mp hc).2
    rw [h1]
    simp [freshCollection]

/-! ### Missing source directory (C1) and unreachable store (C3) -/

/-- C1, amended: when the source directory does not exist the pipeline
creates it, loads no documents, and exits with status 0, but the destination
collection is not left unmodified: the rebuild has already run before the
directory check, so any existing collection of that name was destroyed and a
fresh empty one created. The result record pins the printed events, so in
particular no loaded-documents report appears. Both driver scripts behave
this way. -/
theorem missing_dir_exits_zero_after_rebuild (env : CodeEnv) (envd : DocsEnv)
    (store : List Collection) (code_path docs_path cname dname : String)
    (hm : env.mappingsOk = true) (hr : env.reachable = true) (hd : env.dirExists = false)
    (hr2 : envd.reachable = true) (hd2 : envd.dirExists = false) :
    process_code env store code_path cname =
      { store := store.filter (fun c => !(c.name == cname)) ++ [freshCollection cname],
        exit_code := 0,
        events := [Event.connected,
          if cname ∈ store.map (fun c => c.name) then Event.deletedCollection cname
          else Event.collectionMissing cname,
          Event.createdDir code_path] } ∧
    process_documents envd store docs_path dname =
      { store := store.filter (fun c => !(c.name == dname)) ++ [freshCollection dname],
        exit_code := 0,
        events := [Event.connected,
          if dname ∈ store.map (fun c => c.name) then Event.deletedCollection dname
          else Event.collectionMissing dname,
          Event.createdDir docs_path] } := by
  constructor
  · unfold process_code
    rw [collection_setup_eq]
    simp [hm, hr, hd]
  · unfold process_documents
    rw [collection_setup_eq]
    simp [hr2, hd2]

/-- Concrete record stored in the pre-existing collection of the C1 and C3
counterexample stores. -/
def cPoint : PointStruct :=
  { id := "p0", vector := [("fast-all-minilm-l6-v2", [])],
    payload :=
      { document := "old text",
        metadata :=
          { file_path := "old.txt", file_name := "old.txt",
            chunk_id := "0", node_id := "p0" } } }

/-- Concrete store already holding a nonempty collection named code. -/
def cStore : List Collection :=
  [{ name := "code", vectors_config := codeVectorsConfig, points := [cPoint] }]

/-- Concrete oracle set for process_code runs in witnesses and
counterexamples: the source directory is missing, the store is reachable. -/
def cEnvMissingDir : CodeEnv :=
  { mappingsOk := true, language_mappings := [("python", [".py"])],
    reachable := true, dirExists := false, documents := [],
    codeSplit := fun _ _ _ _ _ => Except.ok [],
    sentenceSplit := fun _ _ _ => [], embed := fun _ => [] }

/-- Concrete process_documents oracle set with a missing source directory. -/
def cDocsEnvMissingDir : DocsEnv :=
  { reachable := true, dirExists := false, documents := [],
    sentenceSplit := fun _ _ _ => [], embed := fun _ => [] }

theorem missing_dir_exits_zero_after_rebuild_witness :
    process_code cEnvMissingDir cStore "./code" "code" =
      { store := cStore.filter (fun c => !(c.name == "code")) ++ [freshCollection "code"],
        exit_code := 0,
        events := [Event.connected,
          if "code" ∈ cStore.map (fun c => c.name) then Event.deletedCollection "code"
          else Event.collectionMissing "code",
          Event.createdDir "./code"] } ∧
    process_documents cDocsEnvMissingDir cStore "./documents" "documents" =
      { store := cStore.filter (fun c => !(c.name == "documents"))
          ++ [freshCollection "documents"],
        exit_code := 0,
        events := [Event.connected,
          if "documents" ∈ cStore.map (fun c => c.name) then Event.deletedCollection "documents"
          else Event.collectionMissing "documents",
          Event.createdDir "./documents"] } :=
  missing_dir_exits_zero_after_rebuild cEnvMissingDir cDocsEnvMissingDir cStore
    "./code" "./documents" "code" "documents" rfl rfl rfl rfl rfl

/-- C1 counterexample: with the source directory missing and a nonempty
collection named code already in the store, the run leaves the store changed,
so the destination collection is not left unmodified as the claim states. -/
theorem missing_dir_modifies_collection_cex :
    (process_code cEnvMissingDir cStore "./code" "code").store ≠ cStore := by decide

/-- C3, amended: when the vector store is unreachable at the start of a run,
both drivers print the connection diagnostic and abandon the run with the
store untouched, but the process still terminates with exit status 0: the
scripts return None from the failure branch and fall off main. -/
theorem unreachable_store_exits_zero (env : CodeEnv) (envd : DocsEnv)
    (store : List Collection) (code_path docs_path cname dname : String)
    (hm : env.mappingsOk = true) (hr : env.reachable = false) (hr2 : envd.reachable = false) :
    process_code env store code_path cname =
      { store := store, exit_code := 0, events := [Event.connectFailed] } ∧
    process_documents envd store docs_path dname =
      { store := store, exit_code := 0, events := [Event.connectFailed] } := by
  constructor
  · unfold process_code
    simp [hm, hr]
  · unfold process_documents
    simp [hr2]

/-- Concrete process_code oracle set with an unreachable store. -/
def cEnvUnreachable : CodeEnv := { cEnvMissingDir with reachable := false, dirExists := true }

/-- Concrete process_documents oracle set with an unreachable store. -/
def cDocsEnvUnreachable : DocsEnv := { cDocsEnvMissingDir with reachable := false }

theorem unreachable_store_exits_zero_witness :
    process_code cEnvUnreachable cStore "./code" "code" =
      { store := cStore, exit_code := 0, events := [Event.connectFailed] } ∧
    process_documents cDocsEnvUnreachable cStore "./documents" "documents" =
      { store := cStore, exit_code := 0, events := [Event.connectFailed] } :=
  unreachable_store_exits_zero cEnvUnreachable cDocsEnvUnreachable cStore
    "./code" "./documents" "code" "documents" rfl rfl rfl

/-- C3 counterexample: at a concrete unreachable-store run, both drivers
terminate with exit status 0, not the nonzero status the claim requires. -/
theorem unreachable_store_nonzero_exit_cex :
    (process_code cEnvUnreachable cStore "./code" "code").exit_code = 0 ∧
    (process_documents cDocsEnvUnreachable cStore "./documents" "documents").exit_code = 0 := by
  decide

/-! ### Unmapped extensions (C2), splitter fallback (C7), resolver contract (C8) -/

/-- C2, amended: for a file whose extension is absent from the mapping table
the resolver returns none (the unresolved outcome), and the loop skips the
file entirely: it prints the skip line and produces no chunks for it, so
neither the structure-aware splitter nor the generic fallback splitter is
attempted on that file. -/
theorem unmapped_extension_file_skipped (env : CodeEnv) (doc : Document)
    (h : get_language_from_extension doc.file_path env.language_mappings = none) :
    chunkStep env doc = ([], [Event.skippedFile doc.file_path]) := by
  unfold chunkStep
  rw [h]

/-- Concrete document whose extension no mapping entry covers. -/
def cDocUnmapped : Document := { file_path := "src/a.xyz", file_name := "a.xyz", text := "t" }

/-- Concrete document with a mapped python extension. -/
def cDocPy : Document := { file_path := "src/a.py", file_name := "a.py", text := "x = 1" }

/-- Concrete chunking oracle set: the python mapping, a structure-aware
splitter that always raises, and a generic splitter producing one chunk. -/
def cEnvChunk : CodeEnv :=
  { mappingsOk := true, language_mappings := [("python", [".py"])], reachable := true,
    dirExists := true, documents := [cDocUnmapped],
    codeSplit := fun _ _ _ _ _ => Except.error "parser failure",
    sentenceSplit := fun _ _ d =>
      [{ node_id := "n1", text := d.text, file_path := d.file_path, file_name := d.file_name }],
    embed := fun _ => [] }

theorem unmapped_extension_file_skipped_witness :
    chunkStep cEnvChunk cDocUnmapped = ([], [Event.skippedFile "src/a.xyz"]) :=
  unmapped_extension_file_skipped cEnvChunk cDocUnmapped (by decide)

/-- C2 counterexample: a file with an unmapped extension is skipped with zero
chunks, while the generic fallback splitter applied to that file yields a
chunk, so the chunker does not chunk such files with the fallback splitter as
the claim states. -/
theorem unmapped_extension_not_fallback_chunked_cex :
    get_language_from_extension cDocUnmapped.file_path cEnvChunk.language_mappings = none ∧
    (chunkStep cEnvChunk cDocUnmapped).1 = [] ∧
    cEnvChunk.sentenceSplit 512 50 cDocUnmapped ≠ [] := by decide

/-- C7: when the resolved language has a structure-aware splitter that raises
during chunking, the loop prints the fallback lines and emits exactly the
chunks of the generic splitter with chunk size 512 and overlap 50, and the
failure never propagates: every such run completes with exit status 0. -/
theorem splitter_failure_falls_back (env : CodeEnv) (doc : Document) (language e : String)
    (h1 : get_language_from_extension doc.file_path env.language_mappings = some language)
    (h2 : env.codeSplit language 40 15 1500 doc = Except.error e) :
    chunkStep env doc
      = (env.sentenceSplit 512 50 doc, [Event.fallback doc.file_path language]) ∧
    ∀ store code_path collection_name,
      (process_code env store code_path collection_name).exit_code = 0 := by
  constructor
  · simp only [chunkStep, h1, h2]
  · intro store code_path collection_name
    exact process_code_exit_zero env store code_path collection_name

/-- Concrete oracle set for a run whose only document hits the failing
structure-aware splitter. -/
def cEnvFallback : CodeEnv := { cEnvChunk with documents := [cDocPy] }

theorem splitter_failure_falls_back_witness :
    chunkStep cEnvFallback cDocPy
      = (cEnvFallback.sentenceSplit 512 50 cDocPy, [Event.fallback "src/a.py" "python"]) ∧
    (process_code cEnvFallback cStore "./code" "code").exit_code = 0 :=
  ⟨(splitter_failure_falls_back cEnvFallback cDocPy "python" "parser failure"
      (by decide) rfl).1,
   (splitter_failure_falls_back cEnvFallback cDocPy "python" "parser failure"
      (by decide) rfl).2 cStore "./code" "code"⟩

theorem lookupLang_eq_none_iff (ext : String) (ms : List (String × List String)) :
    lookupLang ext ms = none ↔ ∀ p ∈ ms, ext ∉ p.2 := by
  induction ms with
  | nil => simp [lookupLang]
  | cons p rest ih =>
    obtain ⟨language, extensions⟩ := p
    by_cases h : ext ∈ extensions
    · rw [lookupLang, if_pos h]
      constructor
      · intro hc
        exact absurd hc (by simp)
      · intro hall
        exact absurd h (hall (language, extensions) (List.mem_cons_self _ _))
    · rw [lookupLang, if_neg h, ih]
      constructor
      · intro hall q hq
        rcases List.mem_cons.mp hq with hq1 | hq2
        · subst hq1
          exact h
        · exact hall q hq2
      · intro hall q hq
        exact hall q (List.mem_cons_of_mem _ hq)

theorem lookupLang_eq_some_iff (ext : String) (ms : List (String × List String))
    (language : String) :
    lookupLang ext ms = some language ↔
      ∃ pre extensions suf, ms = pre ++ (language, extensions) :: suf ∧
        ext ∈ extensions ∧ ∀ q ∈ pre, ext ∉ q.2 := by
  induction ms with
  | nil =>
    constructor
    · intro he
      simp [lookupLang] at he
    · rintro ⟨pre, extensions, suf, hms, -, -⟩
      cases pre <;> simp at hms
  | cons p rest ih =>
    obtain ⟨lang0, exts0⟩ := p
    by_cases h : ext ∈ exts0
    · rw [lookupLang, if_pos h]
      constructor
      · intro he
        injection he with he
        subst he
        exact ⟨[], exts0, rest, rfl, h, by simp⟩
      · rintro ⟨pre, extensions, suf, hms, hin, hpre⟩
        cases pre with
        | nil =>
          simp only [List.nil_append, List.cons.injEq, Prod.mk.injEq] at hms
          rw [hms.1.1]
        | cons q pres =>
          obtain ⟨qa, qb⟩ := q
          simp only [List.cons_append, List.cons.injEq, Prod.mk.injEq] at hms
          have hq := hpre (qa, qb) (List.mem_cons_self _ _)
          rw [← hms.1.2] at hq
          exact absurd h hq
    · rw [lookupLang, if_neg h, ih]
      constructor
      · rintro ⟨pre, extensions, suf, hms, hin, hpre⟩
        refine ⟨(lang0, exts0) :: pre, extensions, suf, by rw [List.cons_append, hms], hin, ?_⟩
        intro q hq
        rcases List.mem_cons.mp hq with hq1 | hq2
        · subst hq1
          exact h
        · exact hpre q hq2
      · rintro ⟨pre, extensions, suf, hms, hin, hpre⟩
        cases pre with
        | nil =>
          simp only [List.nil_append, List.cons.injEq, Prod.mk.injEq] at hms
          rw [← hms.1.2] at hin
          exact absurd hin h
        | cons q pres =>
          obtain ⟨qa, qb⟩ := q
          simp only [List.cons_append, List.cons.injEq, Prod.mk.injEq] at hms
          refine ⟨pres, extensions, suf, hms.2, hin, ?_⟩
          intro r hr
          exact hpre r (List.mem_cons_of_mem _ hr)

/-- C8, amended: the Language Resolver lowercases the extension of the path
and returns the declared language of the first mapping entry whose extension
list contains that lowercased extension verbatim, and none exactly when no
extension list contains it: the result is some language precisely when the
table splits as pre plus that language entry plus the rest with every earlier
list missing the extension. Matching is case-insensitive only on the path
side, not on the entries of the table, and the function is total with no
other outcome. -/
theorem language_resolver_characterization (file_path : String)
    (language_mappings : List (String × List String)) :
    (get_language_from_extension file_path language_mappings = none ↔
      ∀ p ∈ language_mappings, strLower (path_suffix file_path) ∉ p.2) ∧
    (∀ language, get_language_from_extension file_path language_mappings = some language ↔
      ∃ pre extensions suf,
        language_mappings = pre ++ (language, extensions) :: suf ∧
        strLower (path_suffix file_path) ∈ extensions ∧
        ∀ q ∈ pre, strLower (path_suffix file_path) ∉ q.2) :=
  ⟨lookupLang_eq_none_iff (strLower (path_suffix file_path)) language_mappings,
   fun language =>
    lookupLang_eq_some_iff (strLower (path_suffix file_path)) language_mappings language⟩

/-- C8 counterexample: with the table listing python under the uppercase
entry .PY, the path a.py carries an extension equal to it up to case, so a
case-insensitive match exists, yet get_language_from_extension returns none;
languageResolverSpec, worded from the spec sentence, returns python there. -/
theorem language_resolver_not_case_insensitive_cex :
    get_language_from_extension "x/a.py" [("python", [".PY"])] = none ∧
    languageResolverSpec "x/a.py" [("python", [".PY"])] = some "python" := by decide

/-! ### chunk_id uniqueness (C5) -/

/-- C5: in the record list assembled for one run, the chunk_id metadata
entries are pairwise distinct: each is the decimal rendering of the position
of its chunk in the flattened chunk list of the whole run, regardless of
which source document a chunk came from. -/
theorem chunk_ids_nodup (embed : String → EmbVector) (all_nodes : List Node) :
    ((mkPoints embed all_nodes).map (fun p => p.payload.metadata.chunk_id)).Nodup := by
  have h : (mkPoints embed all_nodes).map (fun p => p.payload.metadata.chunk_id)
      = (all_nodes.enum.map Prod.fst).map pyStr := by
    unfold mkPoints
    rw [List.map_map, List.map_map]
    rfl
  rw [h]
  exact List.Nodup.map pyStr_injective (List.nodup_enum_map_fst all_nodes)

/-! ### Batched upsert arithmetic (C4) -/

theorem pyRangeAux_shift (step : Nat) :
    ∀ fuel i stop : Nat, pyRangeAux fuel (i + step) stop step
      = (pyRangeAux fuel i (stop - step) step).map (fun j => j + step) := by
  intro fuel
  induction fuel with
  | zero =>
    intro i stop
    rfl
  | succ f ih =>
    intro i stop
    by_cases h : i + step < stop
    · have h2 : i < stop - step := by omega
      simp only [pyRangeAux, if_pos h, if_pos h2, List.map_cons]
      exact congrArg _ (ih (i + step) stop)
    · have h2 : ¬ i < stop - step := by omega
      simp only [pyRangeAux, if_neg h, if_neg h2, List.map_nil]

theorem pyRangeAux_fuel (step : Nat) :
    ∀ f1 f2 i stop : Nat, 0 < step → stop - i ≤ f1 → stop - i ≤ f2 →
      pyRangeAux f1 i stop step = pyRangeAux f2 i stop step := by
  intro f1
  induction f1 with
  | zero =>
    intro f2 i stop hs h1 h2
    have hlt : ¬ i < stop := by omega
    cases f2 with
    | zero => rfl
    | succ g => simp only [pyRangeAux, if_neg hlt]
  | succ f ih =>
    intro f2 i stop hs h1 h2
    by_cases hlt : i < stop
    · cases f2 with
      | zero => omega
      | succ g =>
        simp only [pyRangeAux, if_pos hlt]
        exact congrArg _ (ih g (i + step) stop hs (by omega) (by omega))
    · cases f2 with
      | zero => simp only [pyRangeAux, if_neg hlt]
      | succ g => simp only [pyRangeAux, if_neg hlt]

theorem upsertBatches_nil (B : Nat) : upsertBatches [] B = [] := by
  unfold upsertBatches pyRange
  by_cases h : 0 < B <;> simp [h, pyRangeAux]

theorem upsertBatches_cons (B : Nat) (hB : 0 < B) (l : List PointStruct) (h : l ≠ []) :
    upsertBatches l B = l.take B :: upsertBatches (l.drop B) B := by
  obtain ⟨n, hn⟩ : ∃ n, l.length = n + 1 := by
    have hpos := List.length_pos.mpr h
    exact ⟨l.length - 1, by omega⟩
  unfold upsertBatches pyRange
  rw [if_pos hB, if_pos hB, hn, List.length_drop, hn]
  simp only [pyRangeAux, if_pos (by omega : 0 < n + 1), List.map_cons, Nat.zero_add]
  congr 1
  have hshift := pyRangeAux_shift B n 0 (n + 1)
  rw [Nat.zero_add] at hshift
  rw [hshift,
    pyRangeAux_fuel B n (n + 1 - B) 0 (n + 1 - B) hB (by omega) (by omega),
    List.map_map]
  apply List.map_congr_left
  intro j _
  show (l.drop (j + B)).take B = ((l.drop B).drop j).take B
  rw [List.drop_drop, Nat.add_comm j B]

theorem upsertBatches1000_length (l : List PointStruct) (h : l ≠ []) :
    (upsertBatches l 1000).length = (l.length + 1000 - 1) / 1000 := by
  rw [upsertBatches_cons 1000 (by omega) l h, List.length_cons]
  by_cases h2 : l.drop 1000 = []
  · rw [h2, upsertBatches_nil]
    have hle : l.length ≤ 1000 := by
      have := congrArg List.length h2
      rw [List.length_drop] at this
      simp at this
      omega
    have hpos : 0 < l.length := List.length_pos.mpr h
    simp
    omega
  · rw [upsertBatches1000_length (l.drop 1000) h2]
    have hgt : 1000 < l.length := by
      by_contra hc
      have : l.drop 1000 = [] := by
        apply List.eq_nil_of_length_eq_zero
        rw [List.length_drop]
        omega
      exact h2 this
    rw [List.length_drop]
    omega
termination_by l.length
decreasing_by
  have hpos : 0 < l.length := List.length_pos.mpr h
  rw [List.length_drop]
  omega

theorem upsertBatches1000_middle (l : List PointStruct) (h : l ≠ []) :
    ∀ b ∈ (upsertBatches l 1000).dropLast, b.length = 1000 := by
  rw [upsertBatches_cons 1000 (by omega) l h]
  by_cases h2 : l.drop 1000 = []
  · rw [h2, upsertBatches_nil]
    intro b hb
    simp at hb
  · have hgt : 1000 < l.length := by
      by_contra hc
      have : l.drop 1000 = [] := by
        apply List.eq_nil_of_length_eq_zero
        rw [List.length_drop]
        omega
      exact h2 this
    rw [upsertBatches_cons 1000 (by omega) (l.drop 1000) h2]
    intro b hb
    rw [List.dropLast_cons₂] at hb
    rcases List.mem_cons.mp hb with hb1 | hb2
    · subst hb1
      rw [List.length_take]
      omega
    · rw [← upsertBatches_cons 1000 (by omega) (l.drop 1000) h2] at hb2
      exact upsertBatches1000_middle (l.drop 1000) h2 b hb2
termination_by l.length
decreasing_by
  rw [List.length_drop]
  omega

theorem upsertBatches1000_last (l : List PointStruct) (h : l ≠ []) :
    ∀ b, (upsertBatches l 1000).getLast? = some b →
      b.length = if l.length % 1000 = 0 then 1000 else l.length % 1000 := by
  rw [upsertBatches_cons 1000 (by omega) l h]
  by_cases h2 : l.drop 1000 = []
  · rw [h2, upsertBatches_nil]
    intro b hb
    simp at hb
    have hle : l.length ≤ 1000 := by
      have := congrArg List.length h2
      rw [List.length_drop] at this
      simp at this
      omega
    have hpos : 0 < l.length := List.length_pos.mpr h
    rw [← hb, List.length_take]
    by_cases hmod : l.length % 1000 = 0
    · rw [if_pos hmod]
      omega
    · rw [if_neg hmod]
      omega
  · have hgt : 1000 < l.length := by
      by_contra hc
      have : l.drop 1000 = [] := by
        apply List.eq_nil_of_length_eq_zero
        rw [List.length_drop]
        omega
      exact h2 this
    rw [upsertBatches_cons 1000 (by omega) (l.drop 1000) h2]
    intro b hb
    rw [List.getLast?_cons_cons] at hb
    rw [← upsertBatches_cons 1000 (by omega) (l.drop 1000) h2] at hb
    have hrec := upsertBatches1000_last (l.drop 1000) h2 b hb
    rw [List.length_drop] at hrec
    rw [hrec]
    have hmodeq : (l.length - 1000) % 1000 = l.length % 1000 := by omega
    rw [hmodeq]
termination_by l.length
decreasing_by
  rw [List.length_drop]
  omega

/-- C4: for a nonempty record list and the configured batch size 1000, the
upsert loop issues exactly the ceiling of N over 1000 batches as the script
itself reports, every batch except the last has size exactly 1000, and the
last batch has size N mod 1000, or 1000 when 1000 divides N. -/
theorem upsert_batching (points : List PointStruct) (h : points ≠ []) :
    (upsertBatches points 1000).length = (points.length + 1000 - 1) / 1000 ∧
    (∀ b ∈ (upsertBatches points 1000).dropLast, b.length = 1000) ∧
    (∀ b, (upsertBatches points 1000).getLast? = some b →
      b.length = if points.length % 1000 = 0 then 1000 else points.length % 1000) :=
  ⟨upsertBatches1000_length points h, upsertBatches1000_middle points h,
   upsertBatches1000_last points h⟩

/-- Second concrete record for the batching witness. -/
def cPoint2 : PointStruct := { cPoint with id := "p1" }

theorem upsert_batching_witness :
    (upsertBatches [cPoint, cPoint2] 1000).length
      = ([cPoint, cPoint2].length + 1000 - 1) / 1000 :=
  (upsert_batching [cPoint, cPoint2] (by decide)).1

/-! ### Dry run (C9) and unreadable files (C10) of the deletion tool -/

/-- C9: in dry-run mode the deletion tool removes nothing: the filesystem
after the walk equals the filesystem before, the errors list is empty, and
the returned deleted_files list names exactly the visited non-hidden files
the text heuristic rejects, in walk order. -/
theorem dry_run_deletes_nothing (decodes : String → List Nat → Bool)
    (removeFails : String → Bool) (fs : List FsFile) :
    (delete_non_text_files decodes removeFails fs true).fs = fs ∧
    (delete_non_text_files decodes removeFails fs true).errors = [] ∧
    (delete_non_text_files decodes removeFails fs true).deleted_files =
      (fs.filter (fun f => !f.dir_hidden && !f.name_hidden && !is_text_file decodes f)).map
        (fun f => f.path) := by
  induction fs with
  | nil => exact ⟨rfl, rfl, rfl⟩
  | cons f rest ih =>
    obtain ⟨ih1, ih2, ih3⟩ := ih
    by_cases h1 : f.dir_hidden
    · refine ⟨?_, ?_, ?_⟩ <;>
        simp [delete_non_text_files, h1, ih1, ih2, ih3, List.filter_cons]
    · by_cases h2 : f.name_hidden
      · refine ⟨?_, ?_, ?_⟩ <;>
          simp [delete_non_text_files, h1, h2, ih1, ih2, ih3, List.filter_cons]
      · by_cases h3 : is_text_file decodes f
        · refine ⟨?_, ?_, ?_⟩ <;>
            simp [delete_non_text_files, h1, h2, h3, ih1, ih2, ih3, List.filter_cons]
        · refine ⟨?_, ?_, ?_⟩ <;>
            simp [delete_non_text_files, h1, h2, h3, ih1, ih2, ih3, List.filter_cons]

theorem delete_result_fs_sub (decodes : String → List Nat → Bool) (removeFails : String → Bool)
    (dry_run : Bool) (fs : List FsFile) :
    ∀ f, f ∈ (delete_non_text_files decodes removeFails fs dry_run).fs → f ∈ fs := by
  induction fs with
  | nil =>
    intro f hf
    simp [delete_non_text_files] at hf
  | cons g rest ih =>
    intro f hf
    have hcons : f ∈ g :: (delete_non_text_files decodes removeFails rest dry_run).fs →
        f ∈ g :: rest := by
      intro h2
      rcases List.mem_cons.mp h2 with h3 | h3
      · exact h3 ▸ List.mem_cons_self _ _
      · exact List.mem_cons_of_mem _ (ih f h3)
    dsimp only [delete_non_text_files] at hf
    split at hf
    · exact hcons hf
    · split at hf
      · exact hcons hf
      · split at hf
        · exact hcons hf
        · split at hf
          · exact hcons hf
          · split at hf
            · exact hcons hf
            · exact List.mem_cons_of_mem _ (ih f hf)

theorem delete_removes_unreadable (decodes : String → List Nat → Bool)
    (removeFails : String → Bool) (f : FsFile)
    (hdir : f.dir_hidden = false) (hname : f.name_hidden = false)
    (htext : is_text_file decodes f = false) (hrm : removeFails f.path = false) :
    ∀ fs : List FsFile, f ∈ fs →
      f ∉ (delete_non_text_files decodes removeFails fs false).fs ∧
      f.path ∈ (delete_non_text_files decodes removeFails fs false).deleted_files := by
  intro fs
  induction fs with
  | nil =>
    intro hf
    exact absurd hf (by simp)
  | cons g rest ih =>
    intro hf
    by_cases hgf : g = f
    · subst hgf
      constructor
      · intro hin
        simp only [delete_non_text_files, hdir, hname, htext, hrm, Bool.false_eq_true,
          if_false, ite_false] at hin
        by_cases hmem : g ∈ rest
        · exact (ih hmem).1 hin
        · exact hmem (delete_result_fs_sub decodes removeFails false rest g hin)
      · simp [delete_non_text_files, hdir, hname, htext, hrm]
    · have hg : f ∈ rest := by
        rcases List.mem_cons.mp hf with h | h
        · exact absurd h.symm hgf
        · exact h
      obtain ⟨hnotin, hdel⟩ := ih hg
      have hne : ¬ f = g := fun hc => hgf hc.symm
      by_cases a1 : g.dir_hidden <;> by_cases a2 : g.name_hidden <;>
        by_cases a3 : is_text_file decodes g <;> by_cases a4 : removeFails g.path <;>
        constructor <;>
        simp [delete_non_text_files, a1, a2, a3, a4, hnotin, hdel, hne]

theorem delete_error_keeps_unreadable (decodes : String → List Nat → Bool)
    (removeFails : String → Bool) (f : FsFile)
    (hdir : f.dir_hidden = false) (hname : f.name_hidden = false)
    (htext : is_text_file decodes f = false) (hrm : removeFails f.path = true) :
    ∀ fs : List FsFile, f ∈ fs →
      f ∈ (delete_non_text_files decodes removeFails fs false).fs ∧
      errMsg f.path ∈ (delete_non_text_files decodes removeFails fs false).errors := by
  intro fs
  induction fs with
  | nil =>
    intro hf
    exact absurd hf (by simp)
  | cons g rest ih =>
    intro hf
    by_cases hgf : g = f
    · subst hgf
      constructor <;> simp [delete_non_text_files, hdir, hname, htext, hrm]
    · have hg : f ∈ rest := by
        rcases List.mem_cons.mp hf with h | h
        · exact absurd h.symm hgf
        · exact h
      obtain ⟨hin, herr⟩ := ih hg
      by_cases a1 : g.dir_hidden <;> by_cases a2 : g.name_hidden <;>
        by_cases a3 : is_text_file decodes g <;> by_cases a4 : removeFails g.path <;>
        constructor <;>
        simp [delete_non_text_files, a1, a2, a3, a4, hin, herr]

/-- C10, amended: is_text_file reports false for a file whose read raises
only when the MIME guess from the file name is not a text type; for such a
file the non-dry-run walk deletes it rather than skipping it (it disappears
from the filesystem and its path is listed in deleted_files), and only a
failure of the removal itself is recorded in the errors list and leaves the
file in place. A file whose name yields a text MIME guess is reported as
text without any read, so an unreadable file can also be kept. -/
theorem unreadable_file_deleted (decodes : String → List Nat → Bool)
    (removeFails : String → Bool) (fs : List FsFile) (f : FsFile) (hf : f ∈ fs)
    (hdir : f.dir_hidden = false) (hname : f.name_hidden = false)
    (hmime : mimeIsText f = false) (hread : f.content = none) :
    is_text_file decodes f = false ∧
    (removeFails f.path = false →
      f ∉ (delete_non_text_files decodes removeFails fs false).fs ∧
      f.path ∈ (delete_non_text_files decodes removeFails fs false).deleted_files) ∧
    (removeFails f.path = true →
      f ∈ (delete_non_text_files decodes removeFails fs false).fs ∧
      errMsg f.path ∈ (delete_non_text_files decodes removeFails fs false).errors) := by
  have htext : is_text_file decodes f = false := by
    unfold is_text_file
    rw [hmime, hread]
    simp
  exact ⟨htext,
    fun hrm => delete_removes_unreadable decodes removeFails f hdir hname htext hrm fs hf,
    fun hrm => delete_error_keeps_unreadable decodes removeFails f hdir hname htext hrm fs hf⟩

/-- Concrete unreadable file with a non-text MIME guess. -/
def cBinUnreadable : FsFile :=
  { path := "data.bin", dir_hidden := false, name_hidden := false,
    mime := some "application/octet-stream", content := none }

/-- Concrete decoding oracle claiming every decode fails. -/
def cNoDec : String → List Nat → Bool := fun _ _ => false

/-- Concrete removal oracle on which os.remove always succeeds. -/
def cRemoveOk : String → Bool := fun _ => false

theorem unreadable_file_deleted_witness :
    is_text_file cNoDec cBinUnreadable = false ∧
    cBinUnreadable ∉ (delete_non_text_files cNoDec cRemoveOk [cBinUnreadable] false).fs ∧
    "data.bin" ∈ (delete_non_text_files cNoDec cRemoveOk [cBinUnreadable] false).deleted_files :=
  ⟨(unreadable_file_deleted cNoDec cRemoveOk [cBinUnreadable] cBinUnreadable
      (by decide) rfl rfl (by decide) rfl).1,
   ((unreadable_file_deleted cNoDec cRemoveOk [cBinUnreadable] cBinUnreadable
      (by decide) rfl rfl (by decide) rfl).2.1 rfl).1,
   ((unreadable_file_deleted cNoDec cRemoveOk [cBinUnreadable] cBinUnreadable
      (by decide) rfl rfl (by decide) rfl).2.1 rfl).2⟩

/-- Concrete unreadable file whose name guesses a text MIME type. -/
def cTextUnreadable : FsFile :=
  { path := "notes.txt", dir_hidden := false, name_hidden := false,
    mime := some "text/plain", content := none }

/-- C10 counterexample: a file whose open-and-read raises but whose name
guesses a text MIME type makes is_text_file return true without any read, so
the non-dry-run walk keeps it: the claim that is_text_file returns false for
every file raising on open or read is refuted at this input. -/
theorem unreadable_text_mime_kept_cex :
    is_text_file cNoDec cTextUnreadable = true ∧
    (delete_non_text_files cNoDec cRemoveOk [cTextUnreadable] false).fs
      = [cTextUnreadable] := by decide

end CareDirector
